import Mathlib

/-!
Verification of the quantitative analysis engine of the stock-analysis-tool
repository, as a shallow embedding in Lean 4.

Modelling conventions, used consistently below:

* JavaScript numbers are modelled as exact rationals.  A JS value that is
  not a finite number (NaN, Infinity, or the result of reading an array out
  of range, which in JS yields undefined and then NaN under arithmetic) is
  modelled as `none : Option ℚ`; finite numbers are `some q`.
* Calendar dates are modelled as integer day numbers (days since an epoch);
  an ISO date string is presentation only.  The JS weekday getDay() of day
  number d is modelled as d % 7 (Int.emod, always in [0,7)).
* Thrown JS errors are modelled with Except; each throw site gets an
  explicit error value.
* Math.sqrt and Math.exp are modelled by explicit function parameters
  (sqrtFn, expFn); every theorem that needs a property of them takes that
  property as a hypothesis that the actual IEEE functions satisfy.
-/

set_option maxRecDepth 4000
set_option autoImplicit false

/-- Error kinds for the throw sites of the analysis code. -/
inductive JsErr : Type where
  | insufficientData : JsErr
  | insufficientOverlap : JsErr
  | typeError : JsErr
  deriving DecidableEq, Repr

/-- StockData from src/lib/types.ts: one (date, close) point, the date as a
day number. -/
structure StockData : Type where
  date : ℤ
  close : ℚ
  deriving DecidableEq, Repr

/-- AnalysisResult from src/lib/types.ts: a result-timeline row.  A `none`
date models a JS undefined date, a `none` value or prediction models a JS
null/undefined/NaN entry. -/
structure AnalysisResult : Type where
  date : Option ℤ
  value : Option ℚ
  prediction : Option ℚ
  deriving DecidableEq, Repr

/-- CustomIndicator from src/lib/types.ts: a parsed CSV row. -/
structure CustomIndicator : Type where
  date : String
  value : ℚ
  deriving DecidableEq, Repr

/-! ### JS number helpers (Option ℚ with none = non-finite) -/

/-- JS addition on possibly-non-finite numbers. -/
def jadd : Option ℚ → Option ℚ → Option ℚ
  | some a, some b => some (a + b)
  | _, _ => none

/-- JS subtraction on possibly-non-finite numbers. -/
def jsub : Option ℚ → Option ℚ → Option ℚ
  | some a, some b => some (a - b)
  | _, _ => none

/-- JS multiplication on possibly-non-finite numbers. -/
def jmul : Option ℚ → Option ℚ → Option ℚ
  | some a, some b => some (a * b)
  | _, _ => none

/-- JS division on possibly-non-finite numbers: a finite number divided by
zero is Infinity or NaN in JS, hence non-finite, hence `none` here. -/
def jdiv : Option ℚ → Option ℚ → Option ℚ
  | some a, some b => if b = 0 then none else some (a / b)
  | _, _ => none

/-- JS division of two plain rationals, `none` when the divisor is zero
(JS would give Infinity or NaN, both non-finite). -/
def jsdivQ (a b : ℚ) : Option ℚ :=
  if b = 0 then none else some (a / b)

/-- JS array read xs[i]: undefined (hence NaN under arithmetic) out of
range.  The list already stores possibly-non-finite entries. -/
def jget (xs : List (Option ℚ)) (i : ℕ) : Option ℚ :=
  xs.getD i none

/-- JS array read at a possibly negative (integer) index. -/
def jgetZ (xs : List (Option ℚ)) (i : ℤ) : Option ℚ :=
  if 0 ≤ i then xs.getD i.toNat none else none

/-- Number.prototype.toFixed rounding of a finite value to 2 decimals, as
in parseFloat(x.toFixed(2)). -/
def jsToFixed2 (q : ℚ) : ℚ :=
  (round (q * 100) : ℤ) / 100

/-- Number.prototype.toFixed rounding of a possibly-non-finite value to 4
decimals; NaN stays NaN. -/
def jsToFixed4 (x : Option ℚ) : Option ℚ :=
  x.map (fun q => ((round (q * 10000) : ℤ) : ℚ) / 10000)

/-- Minimum of a list of finite numbers (tensor.min().dataSync()[0]); the
empty case never occurs on the paths the claims are about. -/
def jsMin : List ℚ → ℚ
  | [] => 0
  | x :: xs => xs.foldl min x

/-- Maximum of a list of finite numbers (tensor.max().dataSync()[0]). -/
def jsMax : List ℚ → ℚ
  | [] => 0
  | x :: xs => xs.foldl max x

/-! ### src/lib/utils.ts -/

namespace Utils

/-- calculateEMA (src/lib/utils.ts:160-176), recurrence part: given the
smoothing factor k and the previous EMA, fold over the remaining prices. -/
def emaLoop (k : ℚ) : ℚ → List ℚ → List ℚ
  | _, [] => []
  | prev, x :: xs =>
    let e := x * k + prev * (1 - k)
    e :: emaLoop k e xs

/-- calculateEMA (src/lib/utils.ts:160-176): first entry is the simple
average of the first `period` points, then ema = price*k + prev*(1-k). -/
def calculateEMA (data : List ℚ) (period : ℕ) : List ℚ :=
  let k : ℚ := 2 / ((period : ℚ) + 1)
  let sma : ℚ := (data.take period).sum / (period : ℚ)
  sma :: emaLoop k sma (data.drop period)

/-- calculateEMA run on possibly-non-finite inputs (it is applied to the
MACD line, which can contain NaN entries); same code, NaN-propagating
arithmetic. -/
def emaLoopOpt (k : ℚ) : Option ℚ → List (Option ℚ) → List (Option ℚ)
  | _, [] => []
  | prev, x :: xs =>
    let e := jadd (jmul x (some k)) (jmul prev (some (1 - k)))
    e :: emaLoopOpt k e xs

/-- calculateEMA on a list with possibly-non-finite entries. -/
def calculateEMAOpt (data : List (Option ℚ)) (period : ℕ) : List (Option ℚ) :=
  let k : ℚ := 2 / ((period : ℚ) + 1)
  let sma : Option ℚ :=
    jdiv ((data.take period).foldl jadd (some 0)) (some (period : ℚ))
  sma :: emaLoopOpt k sma (data.drop period)

/-- Gains list of calculateRSI (src/lib/utils.ts:67-71): for each adjacent
pair, the positive part of the change. -/
def gainsOf (closes : List ℚ) : List ℚ :=
  (closes.zip closes.tail).map (fun p => if p.2 - p.1 > 0 then p.2 - p.1 else 0)

/-- Losses list of calculateRSI (src/lib/utils.ts:67-71): for each adjacent
pair, the absolute value of the negative part of the change. -/
def lossesOf (closes : List ℚ) : List ℚ :=
  (closes.zip closes.tail).map (fun p => if p.2 - p.1 < 0 then -(p.2 - p.1) else 0)

/-- RSI formula (src/lib/utils.ts:82-83,96-97): rs = avgGain / avgLoss with
a zero avgLoss replaced by 0.001, rsi = 100 - 100/(1+rs). -/
def rsiOf (avgGain avgLoss : ℚ) : ℚ :=
  let rs := avgGain / (if avgLoss = 0 then 1/1000 else avgLoss)
  100 - 100 / (1 + rs)

/-- Wilder-smoothing loop of calculateRSI (src/lib/utils.ts:91-103): one
RSI value per remaining (gain, loss) pair. -/
def rsiLoop (period : ℕ) : ℚ → ℚ → List (ℚ × ℚ) → List ℚ
  | _, _, [] => []
  | avgGain, avgLoss, (g, l) :: rest =>
    let ag := (avgGain * ((period : ℚ) - 1) + g) / (period : ℚ)
    let al := (avgLoss * ((period : ℚ) - 1) + l) / (period : ℚ)
    jsToFixed2 (rsiOf ag al) :: rsiLoop period ag al rest

/-- calculateRSI (src/lib/utils.ts:52-106).  Throws when
data.length <= period; otherwise one row per index from `period` on, dates
taken from the input. -/
def calculateRSI (data : List StockData) (period : ℕ) :
    Except JsErr (List AnalysisResult) :=
  if data.length ≤ period then .error .insufficientData
  else
    let closes := data.map StockData.close
    let gains := gainsOf closes
    let losses := lossesOf closes
    let avgGain0 := (gains.take period).sum / (period : ℚ)
    let avgLoss0 := (losses.take period).sum / (period : ℚ)
    let values :=
      jsToFixed2 (rsiOf avgGain0 avgLoss0) ::
        rsiLoop period avgGain0 avgLoss0 ((gains.zip losses).drop period)
    let dates := (data.drop period).map StockData.date
    .ok ((dates.zip values).map (fun p =>
      { date := some p.1, value := some p.2, prediction := none }))

/-- MACD line of calculateMACD (src/lib/utils.ts:126-132), exactly as in
the source: for each index i of fastEMA, the guard
i >= slowEMA.length - fastEMA.length (signed comparison) admits the entry
fastEMA[i] - slowEMA[i - (slowEMA.length - fastEMA.length)], where the
slowEMA read can be out of range (undefined, NaN under subtraction). -/
def macdLineOf (fastEMA slowEMA : List ℚ) : List (Option ℚ) :=
  (List.range fastEMA.length).filterMap (fun (i : ℕ) =>
    if (i : ℤ) ≥ (slowEMA.length : ℤ) - (fastEMA.length : ℤ) then
      some (jsub (jget (fastEMA.map some) i)
        (jgetZ (slowEMA.map some)
          ((i : ℤ) - ((slowEMA.length : ℤ) - (fastEMA.length : ℤ)))))
    else none)

/-- calculateMACD (src/lib/utils.ts:109-157).  Throws when
data.length <= slowPeriod + signalPeriod; otherwise macdLine, signal line
(EMA of the macdLine) and histogram = macdLine - signalLine aligned from
the end, each value rounded to 4 decimals. -/
def calculateMACD (data : List StockData)
    (fastPeriod slowPeriod signalPeriod : ℕ) :
    Except JsErr (List AnalysisResult) :=
  if data.length ≤ slowPeriod + signalPeriod then .error .insufficientData
  else
    let closes := data.map StockData.close
    let fastEMA := calculateEMA closes fastPeriod
    let slowEMA := calculateEMA closes slowPeriod
    let macdLine := macdLineOf fastEMA slowEMA
    let signalLine := calculateEMAOpt macdLine signalPeriod
    let histogram := (List.range signalLine.length).map (fun i =>
      jsub (jget macdLine (i + (macdLine.length - signalLine.length)))
        (jget signalLine i))
    let startIndex := data.length - histogram.length
    .ok ((List.range histogram.length).map (fun i =>
      { date := (data.get? (startIndex + i)).map StockData.date
        value := jsToFixed4 (jget histogram i)
        prediction := none }))

/-- Decide whether one character list starts with another. -/
def listStarts : List Char → List Char → Bool
  | _, [] => true
  | [], _ :: _ => false
  | a :: as, b :: bs => a = b && listStarts as bs

/-- String.prototype.includes, on character lists. -/
def listHasSub : List Char → List Char → Bool
  | [], pat => pat.isEmpty
  | a :: as, pat => listStarts (a :: as) pat || listHasSub as pat

/-- Numeric value of a digit run. -/
def digitsToNat (ds : List Char) : ℕ :=
  ds.foldl (fun n c => 10 * n + (c.toNat - 48)) 0

/-- JS whitespace trim, on character lists (String.prototype.trim); String
functions are modelled on the underlying character list throughout the CSV
parser so that everything evaluates structurally. -/
def trimChars (cs : List Char) : List Char :=
  ((cs.dropWhile Char.isWhitespace).reverse.dropWhile Char.isWhitespace).reverse

/-- String.prototype.split with a one-character separator, on character
lists; like JS split it yields [""] on the empty string and keeps empty
fields. -/
def splitOnChar (sep : Char) : List Char → List (List Char)
  | [] => [[]]
  | c :: rest =>
    if c = sep then [] :: splitOnChar sep rest
    else
      match splitOnChar sep rest with
      | [] => [[c]]
      | g :: gs => (c :: g) :: gs

/-- JS parseFloat: longest numeric prefix
[+-]? (digits [. digits?] | . digits) ([eE] [+-]? digits)? of the string,
NaN (`none`) when there is none.  The JS Infinity literal is not modelled;
no claim below depends on it. -/
def jsParseFloat (cs : List Char) : Option ℚ :=
  let p1 : ℚ × List Char :=
    match cs with
    | c :: rest =>
      if c = '-' then (-1, rest) else if c = '+' then (1, rest) else (1, cs)
    | [] => (1, [])
  let ip := p1.2.takeWhile Char.isDigit
  let r1 := p1.2.dropWhile Char.isDigit
  let fpr : List Char × List Char :=
    match r1 with
    | c :: rest =>
      if c = '.' then (rest.takeWhile Char.isDigit, rest.dropWhile Char.isDigit)
      else ([], r1)
    | [] => ([], [])
  if ip = [] ∧ fpr.1 = [] then none
  else
    let mantissa : ℚ :=
      (digitsToNat ip : ℚ) + (digitsToNat fpr.1 : ℚ) / ((10 : ℚ) ^ fpr.1.length)
    let expo : ℤ :=
      match fpr.2 with
      | c :: rest =>
        if c = 'e' ∨ c = 'E' then
          match rest with
          | d :: rest2 =>
            if d = '-' then
              (if rest2.takeWhile Char.isDigit = [] then 0
               else -(digitsToNat (rest2.takeWhile Char.isDigit) : ℤ))
            else if d = '+' then
              (if rest2.takeWhile Char.isDigit = [] then 0
               else (digitsToNat (rest2.takeWhile Char.isDigit) : ℤ))
            else
              (if rest.takeWhile Char.isDigit = [] then 0
               else (digitsToNat (rest.takeWhile Char.isDigit) : ℤ))
          | [] => 0
        else 0
      | [] => 0
    some (p1.1 * mantissa * (10 : ℚ) ^ expo)

/-- Line loop of parseCSVToCustomIndicator (src/lib/utils.ts:221-231): each
line is split at commas; a line without a comma makes valueStr undefined
and undefined.trim() throws a TypeError; a row is kept iff its value
parses non-NaN and its date field is truthy (non-empty). -/
def parseLines : List (List Char) → Except JsErr (List CustomIndicator)
  | [] => .ok []
  | line :: rest =>
    match (splitOnChar ',' line).get? 1 with
    | none => .error .typeError
    | some valueStr =>
      match jsParseFloat (trimChars valueStr) with
      | some v =>
        if (splitOnChar ',' line).headD [] ≠ [] then
          (parseLines rest).map (fun rs =>
            ⟨String.mk (trimChars ((splitOnChar ',' line).headD [])), v⟩ :: rs)
        else parseLines rest
      | none => parseLines rest

/-- parseCSVToCustomIndicator (src/lib/utils.ts:211-234): trim, split into
lines, skip the first line iff it contains "date" or "Date", then parse
each remaining line. -/
def parseCSVToCustomIndicator (csvContent : String) :
    Except JsErr (List CustomIndicator) :=
  let lines := splitOnChar '\n' (trimChars csvContent.data)
  let firstLine := lines.headD []
  let startLine : ℕ :=
    if listHasSub firstLine "date".data || listHasSub firstLine "Date".data
    then 1 else 0
  parseLines (lines.drop startLine)

/-- normalizeData (src/lib/utils.ts:237-247): min-max scaling
(x - min) / (max - min) with no guard against max = min; for a constant
series the division is 0/0, NaN. -/
def normalizeData (data : List ℚ) : List (Option ℚ) × ℚ × ℚ :=
  let mn := jsMin data
  let mx := jsMax data
  (data.map (fun x => jsdivQ (x - mn) (mx - mn)), mn, mx)

/-- denormalizeData (src/lib/utils.ts:250-262): x * (max - min) + min,
elementwise, NaN-propagating. -/
def denormalizeData (normalized : List (Option ℚ)) (mn mx : ℚ) :
    List (Option ℚ) :=
  normalized.map (fun x => x.map (fun q => q * (mx - mn) + mn))

/-- formatAnalysisResults (src/lib/utils.ts:11-49): historical rows carry
the values; when predictions are present, forecast rows are appended at
dates lastDate + 1, lastDate + 2, ... (consecutive calendar days). -/
def formatAnalysisResults (dates : List ℤ) (values : List ℚ)
    (predictions : Option (List ℚ)) : List AnalysisResult :=
  let hist := (List.range values.length).map (fun i =>
    { date := dates.get? i, value := values.get? i,
      prediction := none : AnalysisResult })
  match predictions with
  | some preds =>
    if 0 < preds.length then
      let lastDate := (dates.getLast?).getD 0
      hist ++ (List.range preds.length).map (fun i =>
        { date := some (lastDate + (i : ℤ) + 1), value := none,
          prediction := preds.get? i })
    else hist
  | none => hist

end Utils

/-! ### src/components/Analysis/Correlation.tsx -/

/-- CorrelationResult from src/lib/types.ts (per pair). -/
structure CorrelationResult : Type where
  correlation : Option ℚ
  dates : List ℤ
  values1 : List ℚ
  values2 : List ℚ
  deriving DecidableEq, Repr

namespace Correlation

/-- Date alignment of runCorrelationAnalysis
(src/components/Analysis/Correlation.tsx:57-61): the dates of stock2's
rows whose date occurs in stock1, in stock2's order. -/
def commonDatesOf (s1 s2 : List StockData) : List ℤ :=
  (s2.filter (fun d => (s1.map StockData.date).contains d.date)).map StockData.date

/-- Value extraction (Correlation.tsx:69-80): for each common date, look
the close up in both series; push only when both lookups succeed. -/
def alignedPairs (s1 s2 : List StockData) : List (ℚ × ℚ) :=
  (commonDatesOf s1 s2).filterMap (fun dt =>
    match s1.find? (fun e => e.date == dt), s2.find? (fun e => e.date == dt) with
    | some a, some b => some (a.close, b.close)
    | _, _ => none)

/-- Aligned closes of stock1. -/
def values1Of (s1 s2 : List StockData) : List ℚ :=
  (alignedPairs s1 s2).map Prod.fst

/-- Aligned closes of stock2. -/
def values2Of (s1 s2 : List StockData) : List ℚ :=
  (alignedPairs s1 s2).map Prod.snd

/-- Mean-centering (Correlation.tsx:86-90): subtract sum/length. -/
def centered (v : List ℚ) : List ℚ :=
  let m := v.sum / (v.length : ℚ)
  v.map (fun x => x - m)

/-- Pearson numerator (Correlation.tsx:92). -/
def corrNumOf (s1 s2 : List StockData) : ℚ :=
  (((centered (values1Of s1 s2)).zip (centered (values2Of s1 s2))).map
    (fun p => p.1 * p.2)).sum

/-- Sum of squared centered stock1 values (Correlation.tsx:94). -/
def corrDen1Of (s1 s2 : List StockData) : ℚ :=
  ((centered (values1Of s1 s2)).map (fun x => x * x)).sum

/-- Sum of squared centered stock2 values (Correlation.tsx:95). -/
def corrDen2Of (s1 s2 : List StockData) : ℚ :=
  ((centered (values2Of s1 s2)).map (fun x => x * x)).sum

/-- One pair of runCorrelationAnalysis (Correlation.tsx:57-106): throw
when fewer than 30 common dates, otherwise
correlation = num / (sqrt(den1) * sqrt(den2)), non-finite (`none`) when
the denominator is zero.  Math.sqrt is passed in as sqrtFn. -/
def correlatePair (sqrtFn : ℚ → ℚ) (s1 s2 : List StockData) :
    Except JsErr CorrelationResult :=
  let commonDates := commonDatesOf s1 s2
  if commonDates.length < 30 then .error .insufficientOverlap
  else
    .ok { correlation := jsdivQ (corrNumOf s1 s2)
            (sqrtFn (corrDen1Of s1 s2) * sqrtFn (corrDen2Of s1 s2))
          dates := commonDates
          values1 := values1Of s1 s2
          values2 := values2Of s1 s2 }

end Correlation

/-! ### src/unnamed/part_006 (VAR page with the cointegration screen) -/

namespace Coint

/-- Adjacent differences, data.slice(1).map((val, i) => val - data[i]). -/
def diffsOf (l : List ℚ) : List ℚ :=
  (l.zip l.tail).map (fun p => p.2 - p.1)

/-- Residuals of performCointegrationTest (src/unnamed/part_006:241-246):
target[i] - feature[i] * (sum diffTarget / sum diffFeature).  The two
series are used index-aligned; all claims assume equal length. -/
def residualsOf (target feature : List ℚ) : List ℚ :=
  let coef := (diffsOf target).sum / (diffsOf feature).sum
  List.zipWith (fun t f => t - f * coef) target feature

/-- laggedResiduals = residuals.slice(0, -1). -/
def laggedOf (target feature : List ℚ) : List ℚ :=
  (residualsOf target feature).dropLast

/-- deltaResiduals = first differences of the residuals. -/
def deltaOf (target feature : List ℚ) : List ℚ :=
  diffsOf (residualsOf target feature)

/-- Regression numerator sum x*y (part_006:254). -/
def sumXYOf (target feature : List ℚ) : ℚ :=
  (((laggedOf target feature).zip (deltaOf target feature)).map
    (fun p => p.1 * p.2)).sum

/-- Regression denominator sum x^2 (part_006:255). -/
def sumX2Of (target feature : List ℚ) : ℚ :=
  (((laggedOf target feature)).map (fun x => x * x)).sum

/-- AR(1) coefficient beta = sumXY / sumX2 (part_006:256). -/
def betaOf (target feature : List ℚ) : ℚ :=
  sumXYOf target feature / sumX2Of target feature

/-- Residual sum of squares of the AR(1) fit (part_006:260). -/
def sseOf (target feature : List ℚ) : ℚ :=
  (((laggedOf target feature).zip (deltaOf target feature)).map
    (fun p => (p.2 - betaOf target feature * p.1) ^ 2)).sum

/-- se = sqrt(SSE / (n - 2)) (part_006:259-262), n the residual count. -/
def seOf (sqrtFn : ℚ → ℚ) (target feature : List ℚ) : ℚ :=
  sqrtFn (sseOf target feature /
    (((residualsOf target feature).length : ℚ) - 2))

/-- Pseudo t-statistic |beta / (se / sqrt(sumX2))| (part_006:263). -/
def statisticOf (sqrtFn : ℚ → ℚ) (target feature : List ℚ) : ℚ :=
  |betaOf target feature /
    (seOf sqrtFn target feature / sqrtFn (sumX2Of target feature))|

/-- TestResult shape of the cointegration screen. -/
structure CointResult : Type where
  statistic : ℚ
  pValue : ℝ
  isCointegrated : Prop

/-- performCointegrationTest (src/unnamed/part_006:237-273): statistic as
above, pValue = exp(-0.5 * statistic), significant iff pValue < 0.05.
Math.exp is passed in as expFn. -/
def performCointegrationTest (sqrtFn : ℚ → ℚ) (expFn : ℚ → ℝ)
    (target feature : List ℚ) : CointResult :=
  let s := statisticOf sqrtFn target feature
  { statistic := s
    pValue := expFn (-(1/2) * s)
    isCointegrated := expFn (-(1/2) * s) < (1/20 : ℝ) }

end Coint

/-! ### src/components/Analysis/VAR.tsx (same code in src/unnamed/part_006) -/

namespace VAR

/-- Recent-date window of generateFutureTradingDates
(src/components/Analysis/VAR.tsx:32): dates.slice(-Math.min(20, n)). -/
def recentDatesOf (dates : List ℤ) : List ℤ :=
  dates.drop (dates.length - min 20 dates.length)

/-- Day gaps between consecutive recent dates (VAR.tsx:35-42);
Math.round is exact on whole-day differences. -/
def intervalsOf (dates : List ℤ) : List ℤ :=
  ((recentDatesOf dates).zip (recentDatesOf dates).tail).map (fun p => p.2 - p.1)

/-- Mode computation of VAR.tsx:45-55: a frequency map is built one
interval at a time and the common interval is replaced whenever the count
of the interval just added strictly exceeds the running maximum; `seen`
plays the role of the frequency map (count of x so far). -/
def modeLoop : List ℤ → List ℤ → ℕ → ℤ → ℤ
  | [], _, _, cur => cur
  | x :: rest, seen, maxF, cur =>
    let cnt := seen.count x + 1
    if maxF < cnt then modeLoop rest (x :: seen) cnt x
    else modeLoop rest (x :: seen) maxF cur

/-- commonInterval of VAR.tsx:45-55, starting from 1. -/
def commonIntervalOf (dates : List ℤ) : ℤ :=
  modeLoop (intervalsOf dates) [] 0 1

/-- tradingDays set of VAR.tsx:58-62: weekdays of the recent dates (a
list used only through membership, so duplicates are irrelevant). -/
def tradingDaysOf (dates : List ℤ) : List ℤ :=
  (recentDatesOf dates).map (· % 7)

/-- The while loop of VAR.tsx:68-77 with explicit fuel: step the current
date by the common interval, keep it iff its weekday is in the observed
set, stop once `steps` dates are collected.  `none` means the fuel ran out
before `steps` dates were produced; the termination theorem below shows
fuel 7*steps always suffices, so with that fuel the `some` value is the
value of the unbounded JS loop. -/
def loopGen (c : ℤ) (S : List ℤ) (steps : ℕ) :
    ℕ → ℤ → List ℤ → Option (List ℤ)
  | 0, _, acc => if steps ≤ acc.length then some acc.reverse else none
  | fuel + 1, cur, acc =>
    if steps ≤ acc.length then some acc.reverse
    else
      let cur2 := cur + c
      if cur2 % 7 ∈ S then loopGen c S steps fuel cur2 (cur2 :: acc)
      else loopGen c S steps fuel cur2 acc

/-- generateFutureTradingDates (VAR.tsx:21-80, identically
src/unnamed/part_006:106-165): empty result for fewer than 2 dates,
otherwise the filtered stepping loop from the last date. -/
def generateFutureTradingDates (dates : List ℤ) (steps : ℕ) :
    Option (List ℤ) :=
  if dates.length < 2 then some []
  else loopGen (commonIntervalOf dates) (tradingDaysOf dates) steps
    (7 * steps) ((dates.getLast?).getD 0) []

/-- formatAnalysisResults (VAR.tsx:83-115, identically
src/unnamed/part_006:168-200): historical rows carry values; forecast row
0 carries the last actual value as its prediction (continuity anchor) and
forecast row i >= 1 carries predictions[i-1]; forecast values are null. -/
def formatAnalysisResults (dates : List ℤ) (values : List ℚ)
    (futureDates : List ℤ) (predictions : List ℚ) : List AnalysisResult :=
  let hist := (List.range values.length).map (fun i =>
    { date := dates.get? i, value := values.get? i,
      prediction := none : AnalysisResult })
  let fore := (List.range predictions.length).map (fun i =>
    { date := futureDates.get? i, value := none,
      prediction := if i = 0 then values.getLast? else predictions.get? (i - 1) })
  hist ++ fore

end VAR

/-! ### Helper lemmas -/

lemma jsToFixed2_bounds {q : ℚ} (h0 : 0 ≤ q) (h1 : q < 100) :
    0 ≤ jsToFixed2 q ∧ jsToFixed2 q ≤ 100 := by
  unfold jsToFixed2
  have hl : (0 : ℤ) ≤ round (q * 100) := by
    rw [round_eq]; exact Int.floor_nonneg.mpr (by linarith)
  have hu : round (q * 100) ≤ 10000 := by
    rw [round_eq]
    have : (⌊q * 100 + 1 / 2⌋ : ℚ) ≤ q * 100 + 1 / 2 := Int.floor_le _
    have h2 : (⌊q * 100 + 1 / 2⌋ : ℚ) < 10001 := by linarith
    exact_mod_cast Int.lt_add_one_iff.mp (by exact_mod_cast h2)
  constructor
  · positivity
  · rw [div_le_iff₀ (by norm_num : (0:ℚ) < 100)]
    exact_mod_cast le_trans (by exact_mod_cast hu) (by norm_num)

namespace Utils

lemma rsiOf_bounds {ag al : ℚ} (hg : 0 ≤ ag) (hl : 0 ≤ al) :
    0 ≤ rsiOf ag al ∧ rsiOf ag al < 100 := by
  unfold rsiOf
  have hd : 0 < (if al = 0 then 1/1000 else al) := by
    split
    · norm_num
    · exact lt_of_le_of_ne hl (by tauto)
  have hrs : 0 ≤ ag / (if al = 0 then 1/1000 else al) := div_nonneg hg hd.le
  constructor
  · have : 100 / (1 + ag / (if al = 0 then 1/1000 else al)) ≤ 100 :=
      div_le_self (by norm_num) (by linarith)
    linarith
  · have : 0 < 100 / (1 + ag / (if al = 0 then 1/1000 else al)) :=
      div_pos (by norm_num) (by linarith)
    linarith

lemma rsiLoop_length (period : ℕ) (ag al : ℚ) (pairs : List (ℚ × ℚ)) :
    (rsiLoop period ag al pairs).length = pairs.length := by
  induction pairs generalizing ag al with
  | nil => rfl
  | cons p rest ih => cases p; simp [rsiLoop, ih]

lemma rsiLoop_mem_bounds {period : ℕ} (hp : 1 ≤ period) :
    ∀ (pairs : List (ℚ × ℚ)) (ag al : ℚ), 0 ≤ ag → 0 ≤ al →
      (∀ p ∈ pairs, 0 ≤ p.1 ∧ 0 ≤ p.2) →
      ∀ v ∈ rsiLoop period ag al pairs, 0 ≤ v ∧ v ≤ 100 := by
  intro pairs
  induction pairs with
  | nil => intro ag al _ _ _ v hv; simp [rsiLoop] at hv
  | cons p rest ih =>
    intro ag al hag hal hmem v hv
    obtain ⟨g, l⟩ := p
    have hg : 0 ≤ g := (hmem (g, l) (by simp)).1
    have hl : 0 ≤ l := (hmem (g, l) (by simp)).2
    have hpq : (0 : ℚ) < (period : ℚ) := by exact_mod_cast hp
    have hp1 : (0 : ℚ) ≤ (period : ℚ) - 1 := by
      have : (1 : ℚ) ≤ (period : ℚ) := by exact_mod_cast hp
      linarith
    have hag2 : 0 ≤ (ag * ((period : ℚ) - 1) + g) / (period : ℚ) := by positivity
    have hal2 : 0 ≤ (al * ((period : ℚ) - 1) + l) / (period : ℚ) := by positivity
    simp only [rsiLoop, List.mem_cons] at hv
    rcases hv with hv | hv
    · subst hv
      have hb := rsiOf_bounds hag2 hal2
      exact jsToFixed2_bounds hb.1 hb.2
    · exact ih _ _ hag2 hal2 (fun q hq => hmem q (by simp [hq])) v hv

lemma gainsOf_nonneg (closes : List ℚ) : ∀ x ∈ gainsOf closes, 0 ≤ x := by
  intro x hx
  simp only [gainsOf, List.mem_map] at hx
  obtain ⟨p, -, rfl⟩ := hx
  split <;> [linarith; rfl]

lemma lossesOf_nonneg (closes : List ℚ) : ∀ x ∈ lossesOf closes, 0 ≤ x := by
  intro x hx
  simp only [lossesOf, List.mem_map] at hx
  obtain ⟨p, -, rfl⟩ := hx
  split <;> [linarith; rfl]

end Utils

lemma zip_head? {α β : Type} (l1 : List α) (l2 : List β) :
    (l1.zip l2).head? =
      l1.head?.bind (fun a => l2.head?.map (fun b => (a, b))) := by
  cases l1 <;> cases l2 <;> simp

/-- C2: for a series of length n and a (positive) period p, calculateRSI
fails with InsufficientData when n <= p; when n > p it returns exactly
n - p rows, the first dated at index p of the input, and every RSI value
(Wilder smoothing, zero avgLoss replaced by 0.001) lies in [0, 100]. -/
theorem C2_rsi_rows (data : List StockData) (period : ℕ) (hp : 1 ≤ period) :
    (data.length ≤ period →
      Utils.calculateRSI data period = .error .insufficientData) ∧
    (period < data.length →
      ∃ rows, Utils.calculateRSI data period = .ok rows ∧
        rows.length = data.length - period ∧
        (∃ r0, rows.head? = some r0 ∧
          r0.date = data[period]?.map StockData.date) ∧
        ∀ r ∈ rows, ∃ v, r.value = some v ∧ 0 ≤ v ∧ v ≤ 100) := by
  constructor
  · intro h
    simp [Utils.calculateRSI, h]
  · intro h
    have hnle : ¬(data.length ≤ period) := by omega
    have hppos : (0 : ℚ) < (period : ℚ) := by exact_mod_cast hp
    set closes := data.map StockData.close with hcdef
    set gains := Utils.gainsOf closes with hgdef
    set losses := Utils.lossesOf closes with hldef
    set ag0 := (gains.take period).sum / (period : ℚ) with hagdef
    set al0 := (losses.take period).sum / (period : ℚ) with haldef
    set values := jsToFixed2 (Utils.rsiOf ag0 al0) ::
      Utils.rsiLoop period ag0 al0 ((gains.zip losses).drop period) with hvdef
    set dates := (data.drop period).map StockData.date with hddef
    have hcal : Utils.calculateRSI data period =
        .ok ((dates.zip values).map (fun p =>
          { date := some p.1, value := some p.2, prediction := none })) := by
      unfold Utils.calculateRSI
      rw [if_neg hnle]
    have hclen : closes.length = data.length := by simp [hcdef]
    have hglen : gains.length = data.length - 1 := by
      rw [hgdef]
      simp only [Utils.gainsOf, List.length_map, List.length_zip,
        List.length_tail, hclen]
      omega
    have hllen : losses.length = data.length - 1 := by
      rw [hldef]
      simp only [Utils.lossesOf, List.length_map, List.length_zip,
        List.length_tail, hclen]
      omega
    have hvlen : values.length = data.length - period := by
      rw [hvdef]
      simp only [List.length_cons, Utils.rsiLoop_length, List.length_drop,
        List.length_zip, hglen, hllen]
      omega
    have hdlen : dates.length = data.length - period := by
      simp [hddef]
    have hag0 : 0 ≤ ag0 := by
      rw [hagdef]
      apply div_nonneg _ hppos.le
      exact List.sum_nonneg (fun x hx =>
        Utils.gainsOf_nonneg closes x (List.take_subset _ _ hx))
    have hal0 : 0 ≤ al0 := by
      rw [haldef]
      apply div_nonneg _ hppos.le
      exact List.sum_nonneg (fun x hx =>
        Utils.lossesOf_nonneg closes x (List.take_subset _ _ hx))
    have hval : ∀ v ∈ values, 0 ≤ v ∧ v ≤ 100 := by
      intro v hv
      rw [hvdef] at hv
      rcases List.mem_cons.mp hv with hv | hv
      · subst hv
        have hb := Utils.rsiOf_bounds hag0 hal0
        exact jsToFixed2_bounds hb.1 hb.2
      · refine Utils.rsiLoop_mem_bounds hp _ ag0 al0 hag0 hal0 ?_ v hv
        intro p hpmem
        have hz := List.of_mem_zip (List.mem_of_mem_drop hpmem)
        exact ⟨Utils.gainsOf_nonneg closes _ hz.1,
          Utils.lossesOf_nonneg closes _ hz.2⟩
    refine ⟨_, hcal, ?_, ?_, ?_⟩
    · simp only [List.length_map, List.length_zip, hvlen, hdlen]
      omega
    · have hd0 : dates.head? = data[period]?.map StockData.date := by
        rw [hddef, List.head?_map, List.head?_drop]
      have hdp : data[period]? = some data[period] :=
        List.getElem?_eq_getElem h
      refine ⟨{ date := data[period]?.map StockData.date,
                value := some (jsToFixed2 (Utils.rsiOf ag0 al0)),
                prediction := none }, ?_, rfl⟩
      rw [List.head?_map, zip_head?, hd0, hdp, hvdef]
      simp
    · intro r hr
      obtain ⟨p, hpmem, rfl⟩ := List.mem_map.mp hr
      have hz := List.of_mem_zip hpmem
      obtain ⟨hb1, hb2⟩ := hval p.2 hz.2
      exact ⟨p.2, rfl, hb1, hb2⟩

/-- Example series from section 8 of the spec: closes
100,101,99,102,105,103,107,110,108,112 on days 0..9. -/
def exRSIData : List StockData :=
  [⟨0, 100⟩, ⟨1, 101⟩, ⟨2, 99⟩, ⟨3, 102⟩, ⟨4, 105⟩,
   ⟨5, 103⟩, ⟨6, 107⟩, ⟨7, 110⟩, ⟨8, 108⟩, ⟨9, 112⟩]

/-- C2 witness: the theorem applied to the spec section-8 example series
(10 closes, period 3). -/
theorem C2_rsi_rows_witness :
    (1 ≤ 3) ∧
    ((exRSIData.length ≤ 3 →
      Utils.calculateRSI exRSIData 3 = .error .insufficientData) ∧
    (3 < exRSIData.length →
      ∃ rows, Utils.calculateRSI exRSIData 3 = .ok rows ∧
        rows.length = exRSIData.length - 3 ∧
        (∃ r0, rows.head? = some r0 ∧
          r0.date = exRSIData[3]?.map StockData.date) ∧
        ∀ r ∈ rows, ∃ v, r.value = some v ∧ 0 ≤ v ∧ v ≤ 100)) :=
  ⟨by decide, C2_rsi_rows exRSIData 3 (by decide)⟩

lemma foldl_min_le_init (l : List ℚ) : ∀ a : ℚ, l.foldl min a ≤ a := by
  induction l with
  | nil => intro a; simp
  | cons x xs ih =>
    intro a
    exact le_trans (ih (min a x)) (min_le_left a x)

lemma foldl_min_le_of_mem (l : List ℚ) :
    ∀ (a x : ℚ), x ∈ l → l.foldl min a ≤ x := by
  induction l with
  | nil => intro a x hx; cases hx
  | cons y ys ih =>
    intro a x hx
    rcases List.mem_cons.mp hx with rfl | hx
    · exact le_trans (foldl_min_le_init ys (min a x)) (min_le_right a x)
    · exact ih (min a y) x hx

lemma init_le_foldl_max (l : List ℚ) : ∀ a : ℚ, a ≤ l.foldl max a := by
  induction l with
  | nil => intro a; simp
  | cons x xs ih =>
    intro a
    exact le_trans (le_max_left a x) (ih (max a x))

lemma mem_le_foldl_max (l : List ℚ) :
    ∀ (a x : ℚ), x ∈ l → x ≤ l.foldl max a := by
  induction l with
  | nil => intro a x hx; cases hx
  | cons y ys ih =>
    intro a x hx
    rcases List.mem_cons.mp hx with rfl | hx
    · exact le_trans (le_max_right a x) (init_le_foldl_max ys (max a x))
    · exact ih (max a y) x hx

lemma jsMin_le {l : List ℚ} {x : ℚ} (hx : x ∈ l) : jsMin l ≤ x := by
  cases l with
  | nil => cases hx
  | cons a as =>
    rcases List.mem_cons.mp hx with rfl | hx
    · exact foldl_min_le_init as x
    · exact foldl_min_le_of_mem as a x hx

lemma le_jsMax {l : List ℚ} {x : ℚ} (hx : x ∈ l) : x ≤ jsMax l := by
  cases l with
  | nil => cases hx
  | cons a as =>
    rcases List.mem_cons.mp hx with rfl | hx
    · exact init_le_foldl_max as x
    · exact mem_le_foldl_max as a x hx

lemma le_foldl_min (l : List ℚ) :
    ∀ (a c : ℚ), c ≤ a → (∀ x ∈ l, c ≤ x) → c ≤ l.foldl min a := by
  induction l with
  | nil => intro a c hc _; simpa using hc
  | cons y ys ih =>
    intro a c hc hmem
    exact ih (min a y) c (le_min hc (hmem y (by simp)))
      (fun x hx => hmem x (by simp [hx]))

lemma foldl_max_le (l : List ℚ) :
    ∀ (a c : ℚ), a ≤ c → (∀ x ∈ l, x ≤ c) → l.foldl max a ≤ c := by
  induction l with
  | nil => intro a c hc _; simpa using hc
  | cons y ys ih =>
    intro a c hc hmem
    exact ih (max a y) c (max_le hc (hmem y (by simp)))
      (fun x hx => hmem x (by simp [hx]))

lemma jsMin_const {data : List ℚ} {c : ℚ} (hne : data ≠ [])
    (hconst : ∀ x ∈ data, x = c) : jsMin data = c := by
  cases data with
  | nil => exact absurd rfl hne
  | cons a as =>
    have h1 : jsMin (a :: as) ≤ c :=
      (hconst a (by simp)) ▸ jsMin_le (List.mem_cons_self a as)
    have h2 : c ≤ jsMin (a :: as) :=
      le_foldl_min as a c (le_of_eq (hconst a (by simp)).symm)
        (fun x hx => le_of_eq (hconst x (by simp [hx])).symm)
    linarith

lemma jsMax_const {data : List ℚ} {c : ℚ} (hne : data ≠ [])
    (hconst : ∀ x ∈ data, x = c) : jsMax data = c := by
  cases data with
  | nil => exact absurd rfl hne
  | cons a as =>
    have h1 : c ≤ jsMax (a :: as) :=
      (hconst a (by simp)) ▸ le_jsMax (List.mem_cons_self a as)
    have h2 : jsMax (a :: as) ≤ c :=
      foldl_max_le as a c (le_of_eq (hconst a (by simp)))
        (fun x hx => le_of_eq (hconst x (by simp [hx])))
    linarith

/-- C3 counterexample: normalizing the constant series [5, 5] produces no
finite entry at all (the code divides 0 by 0, NaN); the claim that every
element of the normalized output is a real number fails. -/
theorem C3_normalize_counterexample :
    ((Utils.normalizeData [(5 : ℚ), 5]).1).all (fun y => y.isSome) = false := by
  norm_num [Utils.normalizeData, jsMin, jsMax, jsdivQ]

/-- C3 (amended): for a non-empty constant series max = min, so the
denominator max - min is exactly zero (the source has no epsilon guard)
and every element of the normalized output is non-finite (NaN). -/
theorem C3_normalize_const (data : List ℚ) (c : ℚ) (hne : data ≠ [])
    (hconst : ∀ x ∈ data, x = c) :
    ∀ y ∈ (Utils.normalizeData data).1, y = none := by
  intro y hy
  simp only [Utils.normalizeData, List.mem_map] at hy
  obtain ⟨x, -, rfl⟩ := hy
  rw [jsMin_const hne hconst, jsMax_const hne hconst]
  simp [jsdivQ]

/-- C3 witness: the amended theorem applied to the constant series [5, 5]. -/
theorem C3_normalize_const_witness :
    (([(5 : ℚ), 5] ≠ []) ∧ (∀ x ∈ [(5 : ℚ), 5], x = 5)) ∧
    (∀ y ∈ (Utils.normalizeData [(5 : ℚ), 5]).1, y = none) :=
  ⟨⟨by simp, by simp⟩,
    C3_normalize_const [(5 : ℚ), 5] 5 (by simp) (by simp)⟩

/-- C4: on a series with two distinct elements, max - min is nonzero, so
denormalizeData applied to the output of normalizeData (with the returned
min and max) recovers the input exactly as finite values. -/
theorem C4_denormalize_inverse (data : List ℚ) (a b : ℚ)
    (ha : a ∈ data) (hb : b ∈ data) (hab : a ≠ b) :
    Utils.denormalizeData (Utils.normalizeData data).1
      (Utils.normalizeData data).2.1 (Utils.normalizeData data).2.2 =
      data.map some := by
  have hlt : jsMin data < jsMax data := by
    rcases lt_or_gt_of_ne hab with h | h
    · exact lt_of_le_of_lt (jsMin_le ha) (lt_of_lt_of_le h (le_jsMax hb))
    · exact lt_of_le_of_lt (jsMin_le hb) (lt_of_lt_of_le h (le_jsMax ha))
  have hne : jsMax data - jsMin data ≠ 0 := by linarith
  simp only [Utils.normalizeData, Utils.denormalizeData, List.map_map]
  apply List.map_congr_left
  intro x _
  simp only [Function.comp_apply, jsdivQ, if_neg hne, Option.map_some']
  congr 1
  rw [div_mul_cancel₀ _ hne]
  ring

/-- C4 witness: the theorem applied to the series [1, 3]. -/
theorem C4_denormalize_inverse_witness :
    ((1 : ℚ) ∈ [(1 : ℚ), 3] ∧ (3 : ℚ) ∈ [(1 : ℚ), 3] ∧ (1 : ℚ) ≠ 3) ∧
    Utils.denormalizeData (Utils.normalizeData [(1 : ℚ), 3]).1
      (Utils.normalizeData [(1 : ℚ), 3]).2.1
      (Utils.normalizeData [(1 : ℚ), 3]).2.2 = [(1 : ℚ), 3].map some :=
  ⟨⟨by simp, by simp, by norm_num⟩,
    C4_denormalize_inverse [(1 : ℚ), 3] 1 3 (by simp) (by simp) (by norm_num)⟩

lemma except_isOk_map {ε α β : Type} (f : α → β) (e : Except ε α) :
    (e.map f).isOk = e.isOk := by
  cases e <;> rfl

namespace Utils

/-- Declarative per-line keep rule, stated from the amended C9 claim: a
line is kept iff its value field parses to a non-NaN number and its date
field is non-empty; the kept row carries the trimmed fields. -/
def keptRow (line : List Char) : Option CustomIndicator :=
  let fields := splitOnChar ',' line
  match jsParseFloat (trimChars (fields.getD 1 [])) with
  | some v =>
    if fields.headD [] ≠ [] then
      some ⟨String.mk (trimChars (fields.headD [])), v⟩
    else none
  | none => none

/-- Declarative body of the CSV text: its trimmed lines, minus the first
line when that contains "date" or "Date". -/
def csvBody (text : String) : List (List Char) :=
  let lines := splitOnChar '\n' (trimChars text.data)
  let firstLine := lines.headD []
  lines.drop
    (if listHasSub firstLine "date".data || listHasSub firstLine "Date".data
     then 1 else 0)

lemma parseLines_ok (ls : List (List Char))
    (h : ∀ line ∈ ls, 2 ≤ (splitOnChar ',' line).length) :
    parseLines ls = .ok (ls.filterMap keptRow) := by
  induction ls with
  | nil => rfl
  | cons line rest ih =>
    have h2 : 2 ≤ (splitOnChar ',' line).length := h line (by simp)
    obtain ⟨x, hx⟩ : ∃ x, (splitOnChar ',' line).get? 1 = some x :=
      ⟨_, by rw [List.get?_eq_getElem?]; exact List.getElem?_eq_getElem (by omega)⟩
    have hxd : (splitOnChar ',' line).getD 1 [] = x := by
      rw [List.getD_eq_getElem?_getD, ← List.get?_eq_getElem?, hx]; rfl
    have ihr := ih (fun l hl => h l (by simp [hl]))
    rcases hpf : jsParseFloat (trimChars x) with _ | v
    · simp only [parseLines, hx, hpf, ihr, List.filterMap_cons, keptRow, hxd]
    · by_cases hd : (splitOnChar ',' line).headD [] ≠ []
      · simp only [parseLines, hx, hpf, if_pos hd, ihr, Except.map,
          List.filterMap_cons, keptRow, hxd]
      · simp only [parseLines, hx, hpf, if_neg hd, ihr,
          List.filterMap_cons, keptRow, hxd]

lemma parseLines_isOk_iff (ls : List (List Char)) :
    (parseLines ls).isOk = true ↔
      ∀ line ∈ ls, 2 ≤ (splitOnChar ',' line).length := by
  induction ls with
  | nil => simp [parseLines, Except.isOk, Except.toBool]
  | cons line rest ih =>
    have hsplit : ∀ b : Prop, (2 ≤ (splitOnChar ',' line).length) → (b ↔
        ∀ l ∈ rest, 2 ≤ (splitOnChar ',' l).length) → (b ↔
        ∀ l ∈ line :: rest, 2 ≤ (splitOnChar ',' l).length) := by
      intro b hlen hb
      rw [hb]
      constructor
      · intro hall l hl
        rcases List.mem_cons.mp hl with rfl | hl
        · exact hlen
        · exact hall l hl
      · intro hall l hl
        exact hall l (by simp [hl])
    rcases hx : (splitOnChar ',' line).get? 1 with _ | x
    · have hlen : (splitOnChar ',' line).length ≤ 1 := by
        by_contra hc
        rw [List.get?_eq_getElem?,
          List.getElem?_eq_getElem (by omega : 1 < (splitOnChar ',' line).length)] at hx
        cases hx
      simp only [parseLines, hx]
      constructor
      · intro hk
        exact absurd hk (by simp [Except.isOk, Except.toBool])
      · intro hall
        exact absurd (hall line (by simp)) (by omega)
    · have hlen : 2 ≤ (splitOnChar ',' line).length := by
        by_contra hc
        rw [List.get?_eq_getElem?, List.getElem?_eq_none (by omega)] at hx
        cases hx
      rcases hpf : jsParseFloat (trimChars x) with _ | v
      · simp only [parseLines, hx, hpf]
        exact hsplit _ hlen ih
      · by_cases hd : (splitOnChar ',' line).headD [] ≠ []
        · simp only [parseLines, hx, hpf, if_pos hd, except_isOk_map]
          exact hsplit _ hlen ih
        · simp only [parseLines, hx, hpf, if_neg hd]
          exact hsplit _ hlen ih

end Utils

/-- C9 (amended): parseCSVToCustomIndicator skips the first line iff it
contains "date" or "Date"; it returns rows (rather than throwing) iff
every processed line has at least two comma-separated fields (a line
without a comma raises a TypeError on valueStr.trim()); in that case the
kept rows are exactly, and in order, the lines whose value field parses
to a non-NaN number and whose date field is non-empty. -/
theorem C9_parse_csv_spec (text : String) :
    ((Utils.parseCSVToCustomIndicator text).isOk = true ↔
      ∀ line ∈ Utils.csvBody text, 2 ≤ (Utils.splitOnChar ',' line).length) ∧
    ((∀ line ∈ Utils.csvBody text, 2 ≤ (Utils.splitOnChar ',' line).length) →
      Utils.parseCSVToCustomIndicator text =
        .ok ((Utils.csvBody text).filterMap Utils.keptRow)) := by
  have hdef : Utils.parseCSVToCustomIndicator text =
      Utils.parseLines (Utils.csvBody text) := rfl
  rw [hdef]
  exact ⟨Utils.parseLines_isOk_iff _, Utils.parseLines_ok _⟩

/-- C9 witness: the general theorem applied to a concrete three-line text
with a header row. -/
theorem C9_parse_csv_spec_witness :
    ((Utils.parseCSVToCustomIndicator "date,value\nA,1\nB,2").isOk = true ↔
      ∀ line ∈ Utils.csvBody "date,value\nA,1\nB,2",
        2 ≤ (Utils.splitOnChar ',' line).length) ∧
    ((∀ line ∈ Utils.csvBody "date,value\nA,1\nB,2",
        2 ≤ (Utils.splitOnChar ',' line).length) →
      Utils.parseCSVToCustomIndicator "date,value\nA,1\nB,2" =
        .ok ((Utils.csvBody "date,value\nA,1\nB,2").filterMap Utils.keptRow)) :=
  C9_parse_csv_spec "date,value\nA,1\nB,2"

/-- C9 counterexample: in the text "a,1\n,5" the second row's value "5"
parses as a finite number, yet the row is discarded because its date field
is empty, so the parser does not keep all rows whose value parses. -/
theorem C9_parse_csv_counterexample :
    (Utils.jsParseFloat (Utils.trimChars "5".data)).isSome = true ∧
    Utils.parseCSVToCustomIndicator "a,1\n,5" = .ok [⟨"a", 1⟩] := by
  constructor
  · simp +decide [Utils.jsParseFloat, Utils.trimChars]
  · show Utils.parseLines _ = _
    norm_num +decide [Utils.parseLines, Utils.trimChars, Utils.splitOnChar,
      Utils.jsParseFloat, Utils.digitsToNat, Utils.csvBody, Utils.listHasSub,
      Utils.listStarts, Except.map,
      show Char.toNat '1' = 49 from by decide,
      show Char.toNat '5' = 53 from by decide]

namespace Utils

lemma emaLoop_length (k : ℚ) (prev : ℚ) (l : List ℚ) :
    (emaLoop k prev l).length = l.length := by
  induction l generalizing prev with
  | nil => rfl
  | cons x xs ih => simp [emaLoop, ih]

lemma emaLoopOpt_length (k : ℚ) (prev : Option ℚ) (l : List (Option ℚ)) :
    (emaLoopOpt k prev l).length = l.length := by
  induction l generalizing prev with
  | nil => rfl
  | cons x xs ih => simp [emaLoopOpt, ih]

lemma calculateEMA_length (data : List ℚ) (period : ℕ) :
    (calculateEMA data period).length = 1 + (data.length - period) := by
  simp [calculateEMA, emaLoop_length]
  omega

lemma calculateEMAOpt_length (data : List (Option ℚ)) (period : ℕ) :
    (calculateEMAOpt data period).length = 1 + (data.length - period) := by
  simp [calculateEMAOpt, emaLoopOpt_length]
  omega

lemma macdLineOf_eq_map (fastEMA slowEMA : List ℚ)
    (h : slowEMA.length ≤ fastEMA.length) :
    macdLineOf fastEMA slowEMA = (List.range fastEMA.length).map (fun i =>
      jsub (jget (fastEMA.map some) i)
        (jgetZ (slowEMA.map some)
          ((i : ℤ) - ((slowEMA.length : ℤ) - (fastEMA.length : ℤ))))) := by
  unfold macdLineOf
  rw [List.filterMap_eq_map_iff_forall_eq_some.mpr]
  intro i _
  rw [if_pos]
  omega

lemma macdLineOf_length (fastEMA slowEMA : List ℚ)
    (h : slowEMA.length ≤ fastEMA.length) :
    (macdLineOf fastEMA slowEMA).length = fastEMA.length := by
  rw [macdLineOf_eq_map fastEMA slowEMA h]
  simp

lemma jsub_none_right (x : Option ℚ) : jsub x none = none := by
  cases x <;> rfl

lemma range_map_getD {β : Type} (n i : ℕ) (f : ℕ → β) (d : β) (h : i < n) :
    ((List.range n).map f).getD i d = f i := by
  rw [List.getD_eq_getElem?_getD]
  simp [List.getElem?_range, h]

/-- Shape of a successful calculateMACD run, shared by the C1 theorem and
its counterexample: with positive periods, fast < slow and
n > slow + signal, there are n - fast - signal + 2 rows and the last row
value is NaN (the vacuous alignment guard makes the MACD line read past
the end of slowEMA). -/
lemma macd_rows_spec (data : List StockData) (fast slow signal : ℕ)
    (hf : 1 ≤ fast) (hfs : fast < slow) (hs : 1 ≤ signal) :
    (data.length ≤ slow + signal →
      Utils.calculateMACD data fast slow signal = .error .insufficientData) ∧
    (slow + signal < data.length →
      ∃ rows, Utils.calculateMACD data fast slow signal = .ok rows ∧
        rows.length + fast + signal = data.length + 2 ∧
        ∃ r, rows.getLast? = some r ∧ r.value = none) := by
  constructor
  · intro h
    simp [Utils.calculateMACD, h]
  · intro h
    have hnle : ¬(data.length ≤ slow + signal) := by omega
    set closes := data.map StockData.close with hcdef
    set fastEMA := calculateEMA closes fast with hfdef
    set slowEMA := calculateEMA closes slow with hsdef
    set macdLine := macdLineOf fastEMA slowEMA with hmdef
    set signalLine := calculateEMAOpt macdLine signal with hsldef
    set histogram := (List.range signalLine.length).map (fun i =>
      jsub (jget macdLine (i + (macdLine.length - signalLine.length)))
        (jget signalLine i)) with hhdef
    set startIndex := data.length - histogram.length with hstdef
    have hcal : calculateMACD data fast slow signal =
        .ok ((List.range histogram.length).map (fun i =>
          { date := (data.get? (startIndex + i)).map StockData.date
            value := jsToFixed4 (jget histogram i)
            prediction := none })) := by
      unfold calculateMACD
      rw [if_neg hnle]
    have hclen : closes.length = data.length := by simp [hcdef]
    have hflen : fastEMA.length = data.length - fast + 1 := by
      rw [hfdef, calculateEMA_length, hclen]; omega
    have hslen : slowEMA.length = data.length - slow + 1 := by
      rw [hsdef, calculateEMA_length, hclen]; omega
    have hle : slowEMA.length ≤ fastEMA.length := by omega
    have hmlen : macdLine.length = fastEMA.length :=
      macdLineOf_length fastEMA slowEMA hle
    have hsllen : signalLine.length = data.length - fast - signal + 2 := by
      rw [hsldef, calculateEMAOpt_length, hmlen, hflen]; omega
    have hhlen : histogram.length = signalLine.length := by simp [hhdef]
    have hslpos : 1 ≤ signalLine.length := by omega
    -- the last MACD-line entry is NaN: its slowEMA index is out of range
    have hmacd_last : jget macdLine (macdLine.length - 1) = none := by
      rw [hmdef, macdLineOf_eq_map fastEMA slowEMA hle]
      show ((List.range fastEMA.length).map _).getD _ none = none
      have hlen' : (macdLineOf fastEMA slowEMA).length = fastEMA.length :=
        macdLineOf_length fastEMA slowEMA hle
      rw [macdLineOf_eq_map fastEMA slowEMA hle] at hlen'
      rw [hlen', range_map_getD _ _ _ _ (by omega)]
      have hidx : (0 : ℤ) ≤ ((fastEMA.length - 1 : ℕ) : ℤ) -
          ((slowEMA.length : ℤ) - (fastEMA.length : ℤ)) := by omega
      rw [jgetZ, if_pos hidx]
      have hout : (slowEMA.map some).length ≤
          (((fastEMA.length - 1 : ℕ) : ℤ) -
            ((slowEMA.length : ℤ) - (fastEMA.length : ℤ))).toNat := by
        simp only [List.length_map]
        omega
      rw [List.getD_eq_getElem?_getD, List.getElem?_eq_none hout]
      exact jsub_none_right _
    have hhist_last : jget histogram (histogram.length - 1) = none := by
      rw [hhdef]
      show ((List.range signalLine.length).map _).getD _ none = none
      have : ((List.range signalLine.length).map (fun i =>
          jsub (jget macdLine (i + (macdLine.length - signalLine.length)))
            (jget signalLine i))).length = signalLine.length := by simp
      rw [this, range_map_getD _ _ _ _ (by omega)]
      have harith : signalLine.length - 1 +
          (macdLine.length - signalLine.length) = macdLine.length - 1 := by
        omega
      rw [harith, hmacd_last]
      rfl
    refine ⟨_, hcal, ?_, ?_⟩
    · simp only [List.length_map, List.length_range, hhlen, hsllen]
      omega
    · have hpos : 1 ≤ histogram.length := by omega
      obtain ⟨m, hm⟩ : ∃ m, histogram.length = m + 1 :=
        ⟨histogram.length - 1, by omega⟩
      have hlast : ((List.range histogram.length).map (fun i =>
          { date := (data.get? (startIndex + i)).map StockData.date
            value := jsToFixed4 (jget histogram i)
            prediction := none : AnalysisResult })).getLast? =
          some { date := (data.get? (startIndex + m)).map StockData.date
                 value := jsToFixed4 (jget histogram m)
                 prediction := none } := by
        rw [List.getLast?_map, hm, List.range_succ, List.getLast?_concat]
        rfl
      refine ⟨_, hlast, ?_⟩
      show jsToFixed4 (jget histogram m) = none
      have hmt : m = histogram.length - 1 := by omega
      rw [hmt, hhist_last]
      rfl

end Utils

/-- Example six-point series with closes 1..6 on days 0..5. -/
def exMACDData : List StockData :=
  [⟨0, 1⟩, ⟨1, 2⟩, ⟨2, 3⟩, ⟨3, 4⟩, ⟨4, 5⟩, ⟨5, 6⟩]

/-- C1 counterexample: for the six-point series with fast=2, slow=3,
signal=2 (n > slow + signal), the claim predicts a histogram of
n - slow - signal + 1 = 2 real-valued rows, but calculateMACD returns 4
rows and the last row's value is NaN (an out-of-range slowEMA read). -/
theorem C1_macd_counterexample :
    Except.map List.length (Utils.calculateMACD exMACDData 2 3 2) =
      .ok 4 ∧
    Except.map (fun rows => (rows.getLast?).bind AnalysisResult.value)
      (Utils.calculateMACD exMACDData 2 3 2) = .ok none ∧
    exMACDData.length - 3 - 2 + 1 = 2 := by
  obtain ⟨rows, hcal, hlen, r, hr, hv⟩ :=
    Utils.macd_rows_spec exMACDData 2 3 2 (by decide) (by decide) (by decide)
      |>.2 (by decide)
  refine ⟨?_, ?_, by decide⟩
  · rw [hcal]
    have : rows.length = 4 := by
      have h6 : exMACDData.length = 6 := by decide
      omega
    simp [Except.map, this]
  · rw [hcal]
    simp [Except.map, hr, hv]

/-- C1 (amended): if n <= slow + signal, calculateMACD fails with
InsufficientData; with positive periods, fast < slow and n > slow +
signal it returns n - fast - signal + 2 rows (not n - slow - signal + 1):
the alignment guard i >= slowEMA.length - fastEMA.length is vacuously
true because slowEMA is the shorter EMA, so the MACD line pairs
fastEMA[i] with slowEMA[i + slow - fast], reading past the end of
slowEMA, and the trailing histogram values - in particular the final
row's value - are NaN rather than macdLine - signalLine. -/
theorem C1_macd_rows (data : List StockData) (fast slow signal : ℕ)
    (hf : 1 ≤ fast) (hfs : fast < slow) (hs : 1 ≤ signal) :
    (data.length ≤ slow + signal →
      Utils.calculateMACD data fast slow signal = .error .insufficientData) ∧
    (slow + signal < data.length →
      ∃ rows, Utils.calculateMACD data fast slow signal = .ok rows ∧
        rows.length + fast + signal = data.length + 2 ∧
        ∃ r, rows.getLast? = some r ∧ r.value = none) :=
  Utils.macd_rows_spec data fast slow signal hf hfs hs

/-- C1 witness: the amended theorem applied to the six-point example with
fast=2, slow=3, signal=2. -/
theorem C1_macd_rows_witness :
    ((1 ≤ 2) ∧ (2 < 3) ∧ (1 ≤ 2)) ∧
    ((exMACDData.length ≤ 3 + 2 →
      Utils.calculateMACD exMACDData 2 3 2 = .error .insufficientData) ∧
    (3 + 2 < exMACDData.length →
      ∃ rows, Utils.calculateMACD exMACDData 2 3 2 = .ok rows ∧
        rows.length + 2 + 2 = exMACDData.length + 2 ∧
        ∃ r, rows.getLast? = some r ∧ r.value = none)) :=
  ⟨⟨by decide, by decide, by decide⟩,
    C1_macd_rows exMACDData 2 3 2 (by decide) (by decide) (by decide)⟩

namespace Correlation

lemma corrDen1Of_nonneg (s1 s2 : List StockData) : 0 ≤ corrDen1Of s1 s2 :=
  List.sum_nonneg (by
    intro x hx
    simp only [List.mem_map] at hx
    obtain ⟨y, -, rfl⟩ := hx
    exact mul_self_nonneg y)

lemma corrDen2Of_nonneg (s1 s2 : List StockData) : 0 ≤ corrDen2Of s1 s2 :=
  List.sum_nonneg (by
    intro x hx
    simp only [List.mem_map] at hx
    obtain ⟨y, -, rfl⟩ := hx
    exact mul_self_nonneg y)

lemma commonDatesOf_length_eq_card (s1 s2 : List StockData)
    (hnd : (s2.map StockData.date).Nodup) :
    (commonDatesOf s1 s2).length =
      ((s2.map StockData.date).toFinset ∩
        (s1.map StockData.date).toFinset).card := by
  have h1 : commonDatesOf s1 s2 =
      (s2.map StockData.date).filter
        (fun dt => (s1.map StockData.date).contains dt) := by
    unfold commonDatesOf
    rw [List.filter_map]
    rfl
  rw [h1, ← List.toFinset_card_of_nodup (hnd.filter _), List.toFinset_filter]
  congr 1
  rw [← Finset.filter_mem_eq_inter]
  apply Finset.filter_congr
  intro x _
  simp

/-- Content of the C5 claim, shared with its counterexample: the
correlation pair computation fails with InsufficientOverlap exactly when
the date intersection has fewer than 30 points, and on success the
coefficient is non-finite (NaN) exactly when one of the centered
sum-of-squares denominators is zero - in particular it is NaN, not 0,
when both variances vanish. -/
lemma correlation_spec (sqrtFn : ℚ → ℚ) (s1 s2 : List StockData)
    (h0 : sqrtFn 0 = 0) (hpos : ∀ q, 0 < q → 0 < sqrtFn q)
    (hnd : (s2.map StockData.date).Nodup) :
    (correlatePair sqrtFn s1 s2 = .error .insufficientOverlap ↔
      ((s2.map StockData.date).toFinset ∩
        (s1.map StockData.date).toFinset).card < 30) ∧
    (∀ r, correlatePair sqrtFn s1 s2 = .ok r →
      (r.correlation = none ↔
        corrDen1Of s1 s2 = 0 ∨ corrDen2Of s1 s2 = 0)) := by
  have hcard := commonDatesOf_length_eq_card s1 s2 hnd
  constructor
  · rw [← hcard]
    unfold correlatePair
    by_cases hlt : (commonDatesOf s1 s2).length < 30
    · simp [hlt]
    · simp [hlt]
  · intro r hr
    unfold correlatePair at hr
    by_cases hlt : (commonDatesOf s1 s2).length < 30
    · rw [if_pos hlt] at hr
      cases hr
    · rw [if_neg hlt] at hr
      have hcor : r.correlation =
          jsdivQ (corrNumOf s1 s2)
            (sqrtFn (corrDen1Of s1 s2) * sqrtFn (corrDen2Of s1 s2)) := by
        cases hr
        rfl
      rw [hcor]
      unfold jsdivQ
      constructor
      · intro hnone
        by_contra hc
        push_neg at hc
        have h1 : 0 < corrDen1Of s1 s2 :=
          lt_of_le_of_ne (corrDen1Of_nonneg s1 s2) (Ne.symm hc.1)
        have h2 : 0 < corrDen2Of s1 s2 :=
          lt_of_le_of_ne (corrDen2Of_nonneg s1 s2) (Ne.symm hc.2)
        have hprod : 0 < sqrtFn (corrDen1Of s1 s2) * sqrtFn (corrDen2Of s1 s2) :=
          mul_pos (hpos _ h1) (hpos _ h2)
        rw [if_neg (ne_of_gt hprod)] at hnone
        cases hnone
      · intro hzero
        have hprod : sqrtFn (corrDen1Of s1 s2) * sqrtFn (corrDen2Of s1 s2) = 0 := by
          rcases hzero with hz | hz
          · rw [hz, h0, zero_mul]
          · rw [hz, h0, mul_zero]
        rw [if_pos hprod]

lemma centered_const (n : ℕ) (c : ℚ) (hn : n ≠ 0) :
    centered (List.replicate n c) = List.replicate n 0 := by
  have hm : (List.replicate n c).sum / ((List.replicate n c).length : ℚ) = c := by
    rw [List.sum_replicate, nsmul_eq_mul]
    simp only [List.length_replicate]
    rw [mul_div_cancel_left₀ _ (by exact_mod_cast hn : ((n : ℚ) ≠ 0))]
  show (List.replicate n c).map (fun x =>
    x - (List.replicate n c).sum / ((List.replicate n c).length : ℚ)) =
    List.replicate n 0
  rw [hm, List.map_replicate]
  simp

end Correlation

/-- Constant 30-point series at close 5, days 0..29. -/
def exCorrA : List StockData := (List.range 30).map (fun i => ⟨(i : ℤ), 5⟩)

/-- Constant 30-point series at close 7, days 0..29. -/
def exCorrB : List StockData := (List.range 30).map (fun i => ⟨(i : ℤ), 7⟩)

/-- C5 (amended): the pair correlation fails with InsufficientOverlap
exactly when the date intersection has fewer than 30 points; on success
the coefficient is Σdxdy / (sqrt(Σdx²)·sqrt(Σdy²)), which is non-finite
(NaN or ±Infinity), not 0, exactly when one of the variances is zero -
in particular NaN when both are zero. -/
theorem C5_correlation_spec (sqrtFn : ℚ → ℚ) (s1 s2 : List StockData)
    (h0 : sqrtFn 0 = 0) (hpos : ∀ q, 0 < q → 0 < sqrtFn q)
    (hnd : (s2.map StockData.date).Nodup) :
    (Correlation.correlatePair sqrtFn s1 s2 = .error .insufficientOverlap ↔
      ((s2.map StockData.date).toFinset ∩
        (s1.map StockData.date).toFinset).card < 30) ∧
    (∀ r, Correlation.correlatePair sqrtFn s1 s2 = .ok r →
      (r.correlation = none ↔
        Correlation.corrDen1Of s1 s2 = 0 ∨ Correlation.corrDen2Of s1 s2 = 0)) :=
  Correlation.correlation_spec sqrtFn s1 s2 h0 hpos hnd

/-- C5 witness: the theorem applied with sqrtFn = id (which fixes 0 and
preserves positivity, like Math.sqrt) to the two constant 30-point
series. -/
theorem C5_correlation_spec_witness :
    ((id (0 : ℚ) = 0) ∧ (∀ q : ℚ, 0 < q → 0 < id q) ∧
      (exCorrB.map StockData.date).Nodup) ∧
    ((Correlation.correlatePair id exCorrA exCorrB =
        .error .insufficientOverlap ↔
      ((exCorrB.map StockData.date).toFinset ∩
        (exCorrA.map StockData.date).toFinset).card < 30) ∧
    (∀ r, Correlation.correlatePair id exCorrA exCorrB = .ok r →
      (r.correlation = none ↔
        Correlation.corrDen1Of exCorrA exCorrB = 0 ∨
          Correlation.corrDen2Of exCorrA exCorrB = 0))) :=
  ⟨⟨rfl, fun _ h => h, by decide⟩,
    C5_correlation_spec id exCorrA exCorrB rfl (fun _ h => h) (by decide)⟩

/-- C5 counterexample: both constant aligned series (30 common dates)
have exactly zero variance, and the correlation coefficient the code
returns is NaN (0/0), not the claimed 0. -/
theorem C5_correlation_counterexample :
    Correlation.corrDen1Of exCorrA exCorrB = 0 ∧
    Correlation.corrDen2Of exCorrA exCorrB = 0 ∧
    Except.map CorrelationResult.correlation
      (Correlation.correlatePair id exCorrA exCorrB) = .ok none := by
  have hv1 : Correlation.values1Of exCorrA exCorrB = List.replicate 30 5 := by
    decide
  have hv2 : Correlation.values2Of exCorrA exCorrB = List.replicate 30 7 := by
    decide
  have hd1 : Correlation.corrDen1Of exCorrA exCorrB = 0 := by
    unfold Correlation.corrDen1Of
    rw [hv1, Correlation.centered_const 30 5 (by decide), List.map_replicate]
    simp
  have hd2 : Correlation.corrDen2Of exCorrA exCorrB = 0 := by
    unfold Correlation.corrDen2Of
    rw [hv2, Correlation.centered_const 30 7 (by decide), List.map_replicate]
    simp
  refine ⟨hd1, hd2, ?_⟩
  have hok : Correlation.correlatePair id exCorrA exCorrB =
      .ok { correlation := jsdivQ (Correlation.corrNumOf exCorrA exCorrB)
              (id (Correlation.corrDen1Of exCorrA exCorrB) *
                id (Correlation.corrDen2Of exCorrA exCorrB))
            dates := Correlation.commonDatesOf exCorrA exCorrB
            values1 := Correlation.values1Of exCorrA exCorrB
            values2 := Correlation.values2Of exCorrA exCorrB } := by
    unfold Correlation.correlatePair
    rw [if_neg (by decide)]
  rw [hok]
  simp only [Except.map, hd1, hd2, id, mul_zero]
  rw [jsdivQ, if_pos rfl]

/-- C6: under the claim's nondegeneracy hypotheses (equal lengths and
nonzero least-squares denominators: sum of feature diffs, sum of squared
lagged residuals, n > 2, nonzero standard error), the cointegration
screen's statistic |beta / standardError| is nonnegative, its p-value is
exp(-statistic/2), hence always in (0, 1], and significant holds exactly
when pValue < 0.05, equivalently exactly when statistic > 2 ln 20. -/
theorem C6_cointegration_spec (sqrtFn : ℚ → ℚ) (expFn : ℚ → ℝ)
    (target feature : List ℚ)
    (hexp : ∀ x : ℚ, expFn x = Real.exp (x : ℝ))
    (hlen : target.length = feature.length)
    (hdf : (Coint.diffsOf feature).sum ≠ 0)
    (hx2 : Coint.sumX2Of target feature ≠ 0)
    (hn : 2 < (Coint.residualsOf target feature).length)
    (hse : Coint.seOf sqrtFn target feature ≠ 0) :
    0 ≤ (Coint.performCointegrationTest sqrtFn expFn target feature).statistic ∧
    (Coint.performCointegrationTest sqrtFn expFn target feature).pValue =
      Real.exp (-((Coint.statisticOf sqrtFn target feature : ℚ) : ℝ) / 2) ∧
    0 < (Coint.performCointegrationTest sqrtFn expFn target feature).pValue ∧
    (Coint.performCointegrationTest sqrtFn expFn target feature).pValue ≤ 1 ∧
    ((Coint.performCointegrationTest sqrtFn expFn target feature).isCointegrated ↔
      2 * Real.log 20 <
        ((Coint.performCointegrationTest sqrtFn expFn target feature).statistic : ℝ)) := by
  have hst : 0 ≤ Coint.statisticOf sqrtFn target feature := by
    unfold Coint.statisticOf
    exact abs_nonneg _
  have hpv : (Coint.performCointegrationTest sqrtFn expFn target feature).pValue =
      Real.exp (-((Coint.statisticOf sqrtFn target feature : ℚ) : ℝ) / 2) := by
    show expFn (-(1/2) * Coint.statisticOf sqrtFn target feature) = _
    rw [hexp]
    congr 1
    push_cast
    ring
  have hstR : (0 : ℝ) ≤ ((Coint.statisticOf sqrtFn target feature : ℚ) : ℝ) := by
    exact_mod_cast hst
  refine ⟨hst, hpv, ?_, ?_, ?_⟩
  · rw [hpv]; exact Real.exp_pos _
  · rw [hpv]
    exact Real.exp_le_one_iff.mpr (by linarith)
  · show expFn (-(1/2) * Coint.statisticOf sqrtFn target feature) < (1/20 : ℝ) ↔
      2 * Real.log 20 < ((Coint.statisticOf sqrtFn target feature : ℚ) : ℝ)
    rw [hexp]
    rw [show (1/20 : ℝ) = Real.exp (Real.log (1/20)) from
      (Real.exp_log (by norm_num)).symm]
    rw [Real.exp_lt_exp]
    have hlog : Real.log (1/20 : ℝ) = -Real.log 20 := by
      rw [one_div, Real.log_inv]
    rw [hlog]
    constructor
    · intro h
      push_cast at h
      linarith
    · intro h
      push_cast
      linarith

/-- Example target series for the cointegration witness. -/
def exCointT : List ℚ := [1, 2, 4, 3, 5]

/-- Example feature series for the cointegration witness. -/
def exCointF : List ℚ := [1, 3, 2, 5, 4]

/-- C6 witness: the theorem applied with sqrtFn = id and expFn = Real.exp
to two concrete five-point series with nonzero denominators. -/
theorem C6_cointegration_spec_witness :
    ((exCointT.length = exCointF.length) ∧
      ((Coint.diffsOf exCointF).sum ≠ 0) ∧
      (Coint.sumX2Of exCointT exCointF ≠ 0) ∧
      (2 < (Coint.residualsOf exCointT exCointF).length) ∧
      (Coint.seOf id exCointT exCointF ≠ 0)) ∧
    (0 ≤ (Coint.performCointegrationTest id (fun q => Real.exp (q : ℝ))
        exCointT exCointF).statistic ∧
    (Coint.performCointegrationTest id (fun q => Real.exp (q : ℝ))
        exCointT exCointF).pValue =
      Real.exp (-((Coint.statisticOf id exCointT exCointF : ℚ) : ℝ) / 2) ∧
    0 < (Coint.performCointegrationTest id (fun q => Real.exp (q : ℝ))
        exCointT exCointF).pValue ∧
    (Coint.performCointegrationTest id (fun q => Real.exp (q : ℝ))
        exCointT exCointF).pValue ≤ 1 ∧
    ((Coint.performCointegrationTest id (fun q => Real.exp (q : ℝ))
        exCointT exCointF).isCointegrated ↔
      2 * Real.log 20 <
        ((Coint.performCointegrationTest id (fun q => Real.exp (q : ℝ))
          exCointT exCointF).statistic : ℝ))) :=
  ⟨⟨by decide,
    by norm_num [Coint.diffsOf, exCointF],
    by norm_num [Coint.sumX2Of, Coint.laggedOf, Coint.residualsOf,
      Coint.diffsOf, exCointT, exCointF],
    by norm_num [Coint.residualsOf, Coint.diffsOf, exCointT, exCointF],
    by norm_num [Coint.seOf, Coint.sseOf, Coint.betaOf, Coint.sumXYOf,
      Coint.sumX2Of, Coint.laggedOf, Coint.deltaOf, Coint.residualsOf,
      Coint.diffsOf, exCointT, exCointF]⟩,
    C6_cointegration_spec id (fun q => Real.exp (q : ℝ)) exCointT exCointF
      (fun _ => rfl)
      (by decide)
      (by norm_num [Coint.diffsOf, exCointF])
      (by norm_num [Coint.sumX2Of, Coint.laggedOf, Coint.residualsOf,
        Coint.diffsOf, exCointT, exCointF])
      (by norm_num [Coint.residualsOf, Coint.diffsOf, exCointT, exCointF])
      (by norm_num [Coint.seOf, Coint.sseOf, Coint.betaOf, Coint.sumXYOf,
        Coint.sumX2Of, Coint.laggedOf, Coint.deltaOf, Coint.residualsOf,
        Coint.diffsOf, exCointT, exCointF])⟩

lemma mem_of_getLast?_eq {α : Type} {l : List α} {a : α}
    (h : l.getLast? = some a) : a ∈ l := by
  obtain ⟨h1, h2⟩ := List.mem_getLast?_eq_getLast (show a ∈ l.getLast? by
    rw [Option.mem_def, h])
  exact h2 ▸ List.getLast_mem h1

namespace VAR

/-- Fuel-indexed termination of the future-date loop: from a current date
that is j ≤ 7 filtered steps away from a date whose weekday is observed,
fuel 7*(steps - acc.length) always suffices, and the result has exactly
`steps` dates. -/
lemma loopGen_reaches (c : ℤ) (S : List ℤ) (steps : ℕ) :
    ∀ (fuel : ℕ) (cur : ℤ) (acc : List ℤ) (j : ℕ),
      1 ≤ j → j ≤ 7 → (cur + (j : ℤ) * c) % 7 ∈ S →
      acc.length ≤ steps →
      7 * steps ≤ fuel + 7 * acc.length + (7 - j) →
      ∃ l, loopGen c S steps fuel cur acc = some l ∧ l.length = steps := by
  intro fuel
  induction fuel with
  | zero =>
    intro cur acc j hj1 hj7 _ hle hfuel
    have heq : acc.length = steps := by omega
    refine ⟨acc.reverse, ?_, by simp [heq]⟩
    simp [loopGen, heq]
  | succ fuel ih =>
    intro cur acc j hj1 hj7 hmem hle hfuel
    by_cases hdone : steps ≤ acc.length
    · have heq : acc.length = steps := by omega
      refine ⟨acc.reverse, ?_, by simp [heq]⟩
      simp [loopGen, hdone]
    · have hlt : acc.length < steps := by omega
      by_cases hpush : (cur + c) % 7 ∈ S
      · have hnext : ((cur + c) + (7 : ℤ) * c) % 7 ∈ S := by
          rwa [Int.add_mul_emod_self_left]
        obtain ⟨l, hl, hlen⟩ := ih (cur + c) ((cur + c) :: acc) 7
          (by omega) (by omega) (by exact_mod_cast hnext)
          (by simp; omega) (by simp; omega)
        refine ⟨l, ?_, hlen⟩
        rw [loopGen, if_neg hdone, if_pos hpush]
        exact hl
      · have hj2 : 2 ≤ j := by
          by_contra hc
          have : j = 1 := by omega
          rw [this] at hmem
          simp at hmem
          exact hpush hmem
        have hmem2 : ((cur + c) + ((j - 1 : ℕ) : ℤ) * c) % 7 ∈ S := by
          have harith : (cur + c) + ((j - 1 : ℕ) : ℤ) * c = cur + (j : ℤ) * c := by
            have : ((j - 1 : ℕ) : ℤ) = (j : ℤ) - 1 := by omega
            rw [this]; ring
          rwa [harith]
        obtain ⟨l, hl, hlen⟩ := ih (cur + c) acc (j - 1)
          (by omega) (by omega) hmem2 hle (by omega)
        refine ⟨l, ?_, hlen⟩
        rw [loopGen, if_neg hdone, if_neg hpush]
        exact hl

/-- Every date the loop emits has its weekday in the observed set. -/
lemma loopGen_weekdays (c : ℤ) (S : List ℤ) (steps : ℕ) :
    ∀ (fuel : ℕ) (cur : ℤ) (acc : List ℤ),
      (∀ x ∈ acc, x % 7 ∈ S) →
      ∀ l, loopGen c S steps fuel cur acc = some l → ∀ d ∈ l, d % 7 ∈ S := by
  intro fuel
  induction fuel with
  | zero =>
    intro cur acc hacc l hl d hd
    rw [loopGen] at hl
    split at hl
    · cases hl
      exact hacc d (List.mem_reverse.mp hd)
    · cases hl
  | succ fuel ih =>
    intro cur acc hacc l hl d hd
    rw [loopGen] at hl
    split at hl
    · cases hl
      exact hacc d (List.mem_reverse.mp hd)
    · by_cases hpush : (cur + c) % 7 ∈ S
      · rw [if_pos hpush] at hl
        exact ih (cur + c) ((cur + c) :: acc)
          (by
            intro x hx
            rcases List.mem_cons.mp hx with rfl | hx
            · exact hpush
            · exact hacc x hx) l hl d hd
      · rw [if_neg hpush] at hl
        exact ih (cur + c) acc hacc l hl d hd

/-- The last historical date belongs to the recent window and its weekday
to the observed weekday set. -/
lemma getLast_weekday_mem (dates : List ℤ) (h2 : 2 ≤ dates.length) :
    ((dates.getLast?).getD 0) % 7 ∈ tradingDaysOf dates := by
  have hlt : dates.length - min 20 dates.length < dates.length := by omega
  have hdrop : (recentDatesOf dates).getLast? = dates.getLast? :=
    List.getLast?_drop.trans (by simp [Nat.not_le.mpr hlt])
  obtain ⟨a, ha⟩ : ∃ a, dates.getLast? = some a := by
    cases hd : dates.getLast? with
    | none =>
      rw [List.getLast?_eq_none_iff] at hd
      subst hd
      simp at h2
    | some a => exact ⟨a, rfl⟩
  have hmem : a ∈ recentDatesOf dates :=
    mem_of_getLast?_eq (hdrop.trans ha)
  rw [ha]
  exact List.mem_map.mpr ⟨a, hmem, rfl⟩

end VAR

/-- C10: for at least 2 historical dates, the future-trading-date while
loop terminates for every steps: the last date's weekday is in the
observed weekday set, and stepping by the modal gap returns to a weekday
in the set within at most 7 iterations, so 7*steps fuel suffices and
exactly `steps` dates are produced. -/
theorem C10_future_dates_terminate (dates : List ℤ) (steps : ℕ)
    (h2 : 2 ≤ dates.length) :
    ∃ l, VAR.generateFutureTradingDates dates steps = some l ∧
      l.length = steps := by
  unfold VAR.generateFutureTradingDates
  rw [if_neg (by omega)]
  have hmem := VAR.getLast_weekday_mem dates h2
  have hstart : (((dates.getLast?).getD 0) + ((7 : ℕ) : ℤ) *
      VAR.commonIntervalOf dates) % 7 ∈ VAR.tradingDaysOf dates := by
    rw [show ((7 : ℕ) : ℤ) = (7 : ℤ) from rfl,
      Int.add_mul_emod_self_left]
    exact hmem
  exact VAR.loopGen_reaches (VAR.commonIntervalOf dates)
    (VAR.tradingDaysOf dates) steps (7 * steps)
    ((dates.getLast?).getD 0) [] 7 (by omega) (by omega) hstart
    (by simp) (by simp)

/-- C10 witness: ten weekday dates over two weeks, three future dates. -/
theorem C10_future_dates_terminate_witness :
    (2 ≤ ([0, 1, 2, 3, 4, 7, 8, 9, 10, 11] : List ℤ).length) ∧
    ∃ l, VAR.generateFutureTradingDates
        ([0, 1, 2, 3, 4, 7, 8, 9, 10, 11] : List ℤ) 3 = some l ∧
      l.length = 3 :=
  ⟨by decide,
    C10_future_dates_terminate [0, 1, 2, 3, 4, 7, 8, 9, 10, 11] 3 (by decide)⟩

/-- Example ten-date weekday history (two Mon-Fri weeks, day numbers mod 7
in 0..4). -/
def exC7Dates : List ℤ := [0, 1, 2, 3, 4, 7, 8, 9, 10, 11]

/-- Example values for the C7 counterexample timeline. -/
def exC7Values : List ℚ := List.replicate 10 1

/-- C7 counterexample: the utils-side formatter (used by the RSI/MACD/
ARIMA/GARCH paths) generates future dates by adding consecutive calendar
days, so for a Mon-Fri history whose tail occupies weekdays 0..4 the
first forecast row lands on day 12, weekday 5, which is absent from the
observed weekday set of the last up-to-20 historical dates. -/
theorem C7_trading_weekdays_counterexample :
    2 ≤ exC7Dates.length ∧
    (Utils.formatAnalysisResults exC7Dates exC7Values (some [2])).get? 10 =
      some { date := some 12, value := none, prediction := some 2 } ∧
    ¬((12 : ℤ) % 7 ∈ VAR.tradingDaysOf exC7Dates) := by
  refine ⟨by decide, ?_, by decide⟩
  decide

/-- C7 (amended): future dates produced by generateFutureTradingDates
(the VAR path) always fall on weekdays observed among the last up-to-20
historical dates, and so do the dates of all forecast rows of the merged
VAR timeline built from them; the utils-side formatter instead uses
consecutive calendar days and violates this (see the counterexample). -/
theorem C7_trading_weekdays (dates : List ℤ) (steps : ℕ)
    (values predictions : List ℚ) (l : List ℤ)
    (h2 : 2 ≤ dates.length)
    (hgen : VAR.generateFutureTradingDates dates steps = some l) :
    (∀ d ∈ l, d % 7 ∈ VAR.tradingDaysOf dates) ∧
    (predictions.length ≤ l.length →
      ∀ row ∈ VAR.formatAnalysisResults dates values l predictions,
        row.value = none → ∀ dt, row.date = some dt →
          dt % 7 ∈ VAR.tradingDaysOf dates) := by
  have hweek : ∀ d ∈ l, d % 7 ∈ VAR.tradingDaysOf dates := by
    unfold VAR.generateFutureTradingDates at hgen
    rw [if_neg (by omega)] at hgen
    exact VAR.loopGen_weekdays _ _ _ _ _ [] (by simp) l hgen
  refine ⟨hweek, ?_⟩
  intro hplen row hrow hval dt hdt
  unfold VAR.formatAnalysisResults at hrow
  rcases List.mem_append.mp hrow with hh | hh
  · obtain ⟨i, hi, rfl⟩ := List.mem_map.mp hh
    rw [List.mem_range] at hi
    have : values.get? i = none := hval
    rw [List.get?_eq_getElem?, List.getElem?_eq_getElem hi] at this
    cases this
  · obtain ⟨i, hi, rfl⟩ := List.mem_map.mp hh
    rw [List.mem_range] at hi
    have hdate : l.get? i = some dt := hdt
    rw [List.get?_eq_getElem?] at hdate
    exact hweek dt (List.getElem?_mem hdate)

/-- C7 witness: the amended theorem applied to the ten-weekday history
with steps = 4 and three predictions. -/
theorem C7_trading_weekdays_witness :
    (2 ≤ exC7Dates.length ∧
      VAR.generateFutureTradingDates exC7Dates 4 = some [14, 15, 16, 17]) ∧
    ((∀ d ∈ ([14, 15, 16, 17] : List ℤ), d % 7 ∈ VAR.tradingDaysOf exC7Dates) ∧
    (([(2 : ℚ), 3, 4] : List ℚ).length ≤ ([14, 15, 16, 17] : List ℤ).length →
      ∀ row ∈ VAR.formatAnalysisResults exC7Dates exC7Values
          [14, 15, 16, 17] [(2 : ℚ), 3, 4],
        row.value = none → ∀ dt, row.date = some dt →
          dt % 7 ∈ VAR.tradingDaysOf exC7Dates)) :=
  ⟨⟨by decide, by decide⟩,
    C7_trading_weekdays exC7Dates 4 exC7Values [(2 : ℚ), 3, 4]
      [14, 15, 16, 17] (by decide) (by decide)⟩

/-- C8: for non-empty values and predictions, the VAR formatter emits
values.length + predictions.length rows; the first forecast row (index
values.length) carries no value and its prediction is the last actual
value; forecast row i >= 1 carries the model's i-th raw prediction
predictions[i-1]. -/
theorem C8_var_anchor (dates : List ℤ) (values : List ℚ)
    (futureDates : List ℤ) (predictions : List ℚ)
    (hv : values ≠ []) (hp : predictions ≠ []) :
    (VAR.formatAnalysisResults dates values futureDates predictions).length =
      values.length + predictions.length ∧
    (∃ r0, (VAR.formatAnalysisResults dates values futureDates
        predictions).get? values.length = some r0 ∧
      r0.value = none ∧
      ∃ last, values.getLast? = some last ∧ r0.prediction = some last) ∧
    (∀ i, 1 ≤ i → i < predictions.length →
      ∃ r, (VAR.formatAnalysisResults dates values futureDates
          predictions).get? (values.length + i) = some r ∧
        r.value = none ∧ r.prediction = predictions.get? (i - 1) ∧
        (predictions.get? (i - 1)).isSome = true) := by
  have hfore : ∀ i, i < predictions.length →
      (VAR.formatAnalysisResults dates values futureDates
        predictions).get? (values.length + i) =
      some { date := futureDates.get? i, value := none,
             prediction := if i = 0 then values.getLast?
               else predictions.get? (i - 1) } := by
    intro i hi
    unfold VAR.formatAnalysisResults
    rw [List.get?_eq_getElem?,
      List.getElem?_append_right (by simp : ((List.range values.length).map _).length ≤ values.length + i)]
    simp only [List.length_map, List.length_range]
    rw [show values.length + i - values.length = i from by omega]
    rw [List.getElem?_map, List.getElem?_range hi]
    rfl
  refine ⟨?_, ?_, ?_⟩
  · unfold VAR.formatAnalysisResults
    simp
  · obtain ⟨last, hlast⟩ : ∃ a, values.getLast? = some a := by
      cases hl : values.getLast? with
      | none => exact absurd (List.getLast?_eq_none_iff.mp hl) hv
      | some a => exact ⟨a, rfl⟩
    have h0 := hfore 0 (by
      cases predictions with
      | nil => exact absurd rfl hp
      | cons a as => simp)
    rw [Nat.add_zero] at h0
    refine ⟨_, h0, ?_, last, hlast, ?_⟩
    · rfl
    · simp [hlast]
  · intro i h1 hi
    refine ⟨_, hfore i hi, ?_, ?_, ?_⟩
    · rfl
    · show (if i = 0 then values.getLast? else predictions.get? (i - 1)) =
        predictions.get? (i - 1)
      rw [if_neg (by omega)]
    · rw [List.get?_eq_getElem?,
        List.getElem?_eq_getElem (by omega : i - 1 < predictions.length)]
      rfl

/-- C8 witness: the theorem applied to a concrete three-value history and
three predictions. -/
theorem C8_var_anchor_witness :
    (([(10 : ℚ), 20, 30] ≠ ([] : List ℚ)) ∧
      ([(7 : ℚ), 8, 9] ≠ ([] : List ℚ))) ∧
    ((VAR.formatAnalysisResults [0, 1, 2] [(10 : ℚ), 20, 30] [3, 4, 5, 6]
        [(7 : ℚ), 8, 9]).length = ([(10 : ℚ), 20, 30] : List ℚ).length +
        ([(7 : ℚ), 8, 9] : List ℚ).length ∧
    (∃ r0, (VAR.formatAnalysisResults [0, 1, 2] [(10 : ℚ), 20, 30]
        [3, 4, 5, 6] [(7 : ℚ), 8, 9]).get?
          ([(10 : ℚ), 20, 30] : List ℚ).length = some r0 ∧
      r0.value = none ∧
      ∃ last, ([(10 : ℚ), 20, 30] : List ℚ).getLast? = some last ∧
        r0.prediction = some last) ∧
    (∀ i, 1 ≤ i → i < ([(7 : ℚ), 8, 9] : List ℚ).length →
      ∃ r, (VAR.formatAnalysisResults [0, 1, 2] [(10 : ℚ), 20, 30]
          [3, 4, 5, 6] [(7 : ℚ), 8, 9]).get?
            (([(10 : ℚ), 20, 30] : List ℚ).length + i) = some r ∧
        r.value = none ∧
        r.prediction = ([(7 : ℚ), 8, 9] : List ℚ).get? (i - 1) ∧
        (([(7 : ℚ), 8, 9] : List ℚ).get? (i - 1)).isSome = true)) :=
  ⟨⟨by decide, by decide⟩,
    C8_var_anchor [0, 1, 2] [(10 : ℚ), 20, 30] [3, 4, 5, 6] [(7 : ℚ), 8, 9]
      (by decide) (by decide)⟩
